import Mathlib

/-!
Verification of the minirust contrib fork: a minimal abstract-machine program
representation with a type-erased, byte-addressable memory whose type checking
happens exclusively at typed loads.  The builder helpers for zero-initialized
globals are embedded from `src/tooling/miniutil/src/build/global.rs`; the
memory model, type descriptor catalogue and evaluator are modelled from the
specification, since their sources are not part of this repository snapshot
(only the test `src/tooling/minitest/src/tests/ref_ub.rs` exercises them).
-/

namespace MiniRust

/-- Modelled from the spec: the size in bytes of an abstract pointer value.
The concrete value is unobservable (pointers are abstract pairs); 8 matches a
64-bit target. -/
def ptrSize : Nat := 8

/-- Modelled from the spec (§3 Data model): the closed Type variant —
fixed-width integers (size in bytes, signedness), boolean, and
reference-to-pointee with mutability. -/
inductive Ty where
  | int (size : Nat) (signed : Bool)
  | bool
  | ref (pointee : Ty) (mutbl : Bool)
deriving DecidableEq

/-- Modelled from the spec (§4.1): each Type variant carries a size. -/
def Ty.size : Ty → Nat
  | .int s _ => s
  | .bool => 1
  | .ref _ _ => ptrSize

/-- Modelled from the spec (§4.1): each Type variant carries an alignment. -/
def Ty.align : Ty → Nat
  | .int s _ => s
  | .bool => 1
  | .ref _ _ => ptrSize

/-- Modelled from the spec (§4.2): the human-readable name of a Type used in
UB diagnostics. -/
def Ty.name : Ty → String
  | .int s sg => (if sg then "i" else "u") ++ toString (8 * s)
  | .bool => "Bool"
  | .ref t _ => "Ref(" ++ Ty.name t ++ ")"

/-- Modelled from the spec (§3): a memory cell holds either a concrete byte or
an uninitialized marker. -/
inductive AByte where
  | uninit
  | init (b : Nat)
deriving DecidableEq

/-- Modelled from the spec (§3): an abstract pointer value is an
(allocation id, offset) pair, never a raw integer. -/
structure Pointer where
  alloc : Nat
  offset : Nat
deriving DecidableEq

/-- Modelled from the spec (§3): an allocation is a sequence of cells plus a
sparse relocation table (byte offset ↦ abstract pointer value) and a liveness
flag (deallocation marks it dead; ids are never reused). -/
structure Allocation where
  bytes : List AByte
  relocations : List (Nat × Pointer)
  live : Bool
deriving DecidableEq

/-- Modelled from the spec (§3): memory is an allocation-indexed store;
allocation ids are indices into this list. -/
structure Memory where
  allocs : List Allocation
deriving DecidableEq

/-- Modelled from the spec (§7 error taxonomy): the UB kinds relevant to
program semantics (`BuilderMisuse` is a constructing-caller error, not an
evaluation outcome). -/
inductive UbKind where
  | outOfLiveness
  | invalidValue (ty : Ty)
  | outOfBounds
deriving DecidableEq

/-- Modelled from the spec (§4.2, §8): the diagnostic message of a UB kind.
For a validity violation the spec gives two equivalent message forms,
"Reference to invalid type" and "load at type T but the data in memory
violates the validity invariant"; the model emits both, naming the requested
Type. -/
def ubMessage : UbKind → String
  | .invalidValue ty =>
      "Reference to invalid type: load at type " ++ Ty.name ty ++
        " but the data in memory violates the validity invariant"
  | .outOfLiveness => "accessing a Local outside of its liveness window"
  | .outOfBounds => "access beyond the extent of the allocation"

/-- Modelled from the spec (§3): a runtime value — an integer carrying its
byte width, a boolean, or an abstract pointer. -/
inductive Value where
  | int (size : Nat) (n : Int)
  | bool (b : Bool)
  | ptr (p : Pointer)
deriving DecidableEq

/-- The number of bytes a value occupies when stored. -/
def Value.size : Value → Nat
  | .int s _ => s
  | .bool _ => 1
  | .ptr _ => ptrSize

/-- Whether the allocation with the given id currently exists and is live. -/
def Memory.isLive (m : Memory) (i : Nat) : Bool :=
  match m.allocs[i]? with
  | some a => a.live
  | none => false

/-- Look up the relocation entry starting exactly at the given offset. -/
def findReloc (rs : List (Nat × Pointer)) (off : Nat) : Option Pointer :=
  match rs.find? (fun r => r.1 == off) with
  | some r => some r.2
  | none => none

/-- Little-endian decoding of cells into a natural number; uninitialized
cells contribute 0 (integer validity is total, so the choice is
unobservable as UB). -/
def decodeLE : List AByte → Nat
  | [] => 0
  | b :: bs => (match b with | .init n => n | .uninit => 0) + 256 * decodeLE bs

/-- Little-endian encoding of a natural number into the given number of
cells. -/
def encodeNatLE : Nat → Nat → List AByte
  | 0, _ => []
  | s + 1, u => .init (u % 256) :: encodeNatLE s (u / 256)

/-- The raw cells a value is stored as: integers little-endian, booleans a
single byte 0 or 1, pointers leave the cells uninitialized (the pointer
itself lives in the relocation table). -/
def Value.bytes : Value → List AByte
  | .int s n => encodeNatLE s (Int.toNat (n % ((2 : Int) ^ (8 * s))))
  | .bool b => [.init (if b then 1 else 0)]
  | .ptr _ => List.replicate ptrSize .uninit

/-- Modelled from the spec (§4.2): `read_typed` — bounds-check and fetch the
raw cells/relocation at the requested span, then run the Type's validity
check: integers are total (any bit pattern, signed two's-complement decode);
Bool requires the single stored byte to be exactly 0 or 1; Ref requires a
relocation denoting a currently live allocation, independent of the pointee's
declared Type and of the pointee's bytes. -/
def typedRead (m : Memory) (p : Pointer) (ty : Ty) : Except UbKind Value :=
  match m.allocs[p.alloc]? with
  | none => .error .outOfBounds
  | some a =>
    if ¬ a.live then .error .outOfLiveness
    else if a.bytes.length < p.offset + ty.size then .error .outOfBounds
    else
      match ty with
      | .int s sg =>
          let raw := decodeLE ((a.bytes.drop p.offset).take s)
          .ok (.int s (if sg ∧ 2 ^ (8 * s) ≤ 2 * raw
            then (raw : Int) - (2 : Int) ^ (8 * s) else (raw : Int)))
      | .bool =>
          match a.bytes[p.offset]? with
          | some (.init b) =>
              if b = 0 then .ok (.bool false)
              else if b = 1 then .ok (.bool true)
              else .error (.invalidValue .bool)
          | _ => .error (.invalidValue .bool)
      | .ref t mt =>
          match findReloc a.relocations p.offset with
          | some q =>
              if m.isLive q.alloc then .ok (.ptr q)
              else .error (.invalidValue (.ref t mt))
          | none => .error (.invalidValue (.ref t mt))

/-- Overwrite the cells `[off, off + new.length)` of a cell list. -/
def writeBytesAt (bs : List AByte) (off : Nat) (new : List AByte) :
    List AByte :=
  bs.take off ++ new ++ bs.drop (off + new.length)

/-- Drop every relocation entry whose `ptrSize`-byte range overlaps the
written range `[off, off + len)`. -/
def removeOverlap (rs : List (Nat × Pointer)) (off len : Nat) :
    List (Nat × Pointer) :=
  rs.filter (fun r => decide (r.1 + ptrSize ≤ off) || decide (off + len ≤ r.1))

/-- Modelled from the spec (§4.2, invariant 1): `write` — unchecked store of
raw cells (with a relocation entry when the value is a pointer); it succeeds
whenever the allocation is live and the span is in bounds, regardless of any
Type. -/
def writeValue (m : Memory) (p : Pointer) (v : Value) : Except UbKind Memory :=
  match m.allocs[p.alloc]? with
  | none => .error .outOfBounds
  | some a =>
    if ¬ a.live then .error .outOfLiveness
    else if a.bytes.length < p.offset + v.size then .error .outOfBounds
    else
      let bytes := writeBytesAt a.bytes p.offset v.bytes
      let relocs := removeOverlap a.relocations p.offset v.size
      let relocs := match v with
        | .ptr q => (p.offset, q) :: relocs
        | _ => relocs
      .ok ⟨m.allocs.set p.alloc ⟨bytes, relocs, a.live⟩⟩

mutual
/-- Modelled from the spec (§3): a PlaceExpr is a Local or a dereference of a
pointer-valued expression. -/
inductive PlaceExpr where
  | localP (l : Nat)
  | deref (e : ValueExpr)

/-- Modelled from the spec (§3): a ValueExpr is a constant, a typed load, or
`addr-of(place, declared-pointee-Type)` — the declared Type is chosen freely
and never checked. -/
inductive ValueExpr where
  | const (v : Value)
  | load (p : PlaceExpr) (ty : Ty)
  | addrOf (p : PlaceExpr) (ty : Ty)
end

/-- Modelled from the spec (§4.3): the statement forms in scope. -/
inductive Stmt where
  | storageLive (l : Nat)
  | storageDead (l : Nat)
  | assign (p : PlaceExpr) (e : ValueExpr)
  | assume (e : ValueExpr)

/-- Modelled from the spec (§4.4): evaluation halts either on UB or on an
ill-formed program (a builder-misuse-level error, e.g. dereferencing a
non-pointer value). -/
inductive EvalError where
  | ub (k : UbKind)
  | illFormed
deriving DecidableEq

/-- Modelled from the spec (§2, §4.4): the evaluator state — the memory and,
for each Local, the allocation backing it while it is live (`none` outside
its liveness window). -/
structure EvalState where
  mem : Memory
  locals : List (Option Nat)
deriving DecidableEq

mutual
/-- Modelled from the spec (§3, §4.4): evaluate a PlaceExpr to a memory
location.  A Local evaluates to its backing allocation only inside its
liveness window; outside it this is UB of kind `OutOfLiveness`. -/
def evalPlace (s : EvalState) : PlaceExpr → Except EvalError Pointer
  | .localP l =>
      match s.locals.getD l none with
      | some a => .ok ⟨a, 0⟩
      | none => .error (.ub .outOfLiveness)
  | .deref e =>
      match evalValue s e with
      | .ok (.ptr p) => .ok p
      | .ok _ => .error .illFormed
      | .error err => .error err

/-- Modelled from the spec (§3, §4.4): evaluate a ValueExpr.  `load` performs
a typed read; `addr-of` merely repackages the place's location as a pointer
value, with no check against the declared pointee Type. -/
def evalValue (s : EvalState) : ValueExpr → Except EvalError Value
  | .const v => .ok v
  | .load p ty =>
      match evalPlace s p with
      | .ok ptr =>
          match typedRead s.mem ptr ty with
          | .ok v => .ok v
          | .error k => .error (.ub k)
      | .error err => .error err
  | .addrOf p _ =>
      match evalPlace s p with
      | .ok ptr => .ok (.ptr ptr)
      | .error err => .error err
end

/-- Modelled from the spec (§4.3, §4.4): a single function in scope — its
Locals' Types and a linear statement list ending in the implicit `exit`
terminator. -/
structure MiniFn where
  localTys : List Ty
  stmts : List Stmt

/-- Mark the allocation with the given id dead (its id is never reused). -/
def Memory.deallocate (m : Memory) (i : Nat) : Memory :=
  match m.allocs[i]? with
  | some a => ⟨m.allocs.set i ⟨a.bytes, a.relocations, false⟩⟩
  | none => m

/-- Modelled from the spec (§4.3, §4.4): the effect of one statement.
`storage_live` allocates fresh uninitialized storage for the Local;
`storage_dead` deallocates it; `assign` evaluates the place then the value
and stores unchecked; `assume` evaluates its operand as a typed Bool load
(triggering any validity check) and otherwise has no observable effect in
this minimal scope. -/
def execStmt (f : MiniFn) (s : EvalState) : Stmt → Except EvalError EvalState
  | .storageLive l =>
      match f.localTys[l]? with
      | none => .error .illFormed
      | some ty =>
          let id := s.mem.allocs.length
          let a : Allocation := ⟨List.replicate ty.size .uninit, [], true⟩
          .ok ⟨⟨s.mem.allocs ++ [a]⟩, s.locals.set l (some id)⟩
  | .storageDead l =>
      match s.locals.getD l none with
      | some a => .ok ⟨s.mem.deallocate a, s.locals.set l none⟩
      | none => .error (.ub .outOfLiveness)
  | .assign p e =>
      match evalPlace s p with
      | .error err => .error err
      | .ok ptr =>
          match evalValue s e with
          | .error err => .error err
          | .ok v =>
              match writeValue s.mem ptr v with
              | .ok m => .ok ⟨m, s.locals⟩
              | .error k => .error (.ub k)
  | .assume e =>
      match evalValue s e with
      | .ok (.bool _) => .ok s
      | .ok _ => .error .illFormed
      | .error err => .error err

/-- Run a statement list from a state, stopping at the first error. -/
def execStmts (f : MiniFn) : List Stmt → EvalState → Except EvalError EvalState
  | [], s => .ok s
  | st :: rest, s =>
      match execStmt f s st with
      | .ok s' => execStmts f rest s'
      | .error err => .error err

/-- Modelled from the spec (§4.4): the initial evaluator state — fresh empty
memory, every Local initially dead. -/
def initState (f : MiniFn) : EvalState :=
  ⟨⟨[]⟩, List.replicate f.localTys.length none⟩

/-- Modelled from the spec (§6): the externally observable outcome of a run —
Success, or UB carrying a kind and a human-readable message. -/
inductive Outcome where
  | success
  | ub (k : UbKind) (msg : String)
  | illFormed
deriving DecidableEq

/-- Modelled from the spec (§4.4, §6): `run` executes the function's linear
statement list against a fresh Memory; reaching the end is the `exit`
terminator transitioning to Success; the first failed check halts with the
corresponding UB diagnosis. -/
def run (f : MiniFn) : Outcome :=
  match execStmts f f.stmts (initState f) with
  | .ok _ => .success
  | .error (.ub k) => .ub k (ubMessage k)
  | .error .illFormed => .illFormed

/-- The Type `u8`. -/
def u8 : Ty := .int 1 false

/-- The Type `&bool` (a shared reference to Bool). -/
def refBool : Ty := .ref .bool false

/-- The sample program of the test `ref_not_ub`
(`src/tooling/minitest/src/tests/ref_ub.rs`): local `x : u8` is made live and
assigned 2; local `p : &bool` is made live and assigned `addr_of(x, &bool)`;
then `assume(load(deref(load(p)), bool))` is executed. -/
def refNotUbFn : MiniFn where
  localTys := [u8, refBool]
  stmts :=
    [ .storageLive 0
    , .assign (.localP 0) (.const (.int 1 2))
    , .storageLive 1
    , .assign (.localP 1) (.addrOf (.localP 0) refBool)
    , .assume (.load (.deref (.load (.localP 1) refBool)) .bool)
    ]

/-- The `Global` struct (from `src/tooling/miniutil/src/build/global.rs`'s
crate context): an ordered sequence of optional bytes (`None` =
uninitialized), a relocation set (byte offset ↦ referenced global's name),
and an alignment. -/
structure Global where
  bytes : List (Option Nat)
  relocations : List (Nat × Nat)
  align : Nat
deriving DecidableEq

/-- The `ProgramBuilder` state that `declare_global_zero_initialized`
touches: the fresh-name counter `next_global` and the globals map, here an
association list keyed by the Nat inside `GlobalName(Name::from_internal
(..))`. -/
structure ProgramBuilder where
  next_global : Nat
  globals : List (Nat × Global)
deriving DecidableEq

/-- `Map::try_insert`: fails if the key is already present, otherwise adds
the binding. -/
def tryInsert (m : List (Nat × Global)) (k : Nat) (v : Global) :
    Option (List (Nat × Global)) :=
  if m.any (fun kv => kv.1 == k) then none else some (m ++ [(k, v)])

/-- Look up a global by name in the builder's globals map. -/
def lookupGlobal (m : List (Nat × Global)) (k : Nat) : Option Global :=
  match m.find? (fun kv => kv.1 == k) with
  | some kv => some kv.2
  | none => none

/-- Embedding of `ProgramBuilder::declare_global_zero_initialized<T>` from
`src/tooling/miniutil/src/build/global.rs`: build a Global whose bytes are
`T`'s size many `Some(0)` entries, with no relocations and `T`'s alignment;
name it with the current `next_global` counter, bump the counter, and
`try_insert` it into the globals map (`.unwrap()` is the `none` case).  The
function returns the global's name; the source returns
`global_by_name::<T>(name)`, a place determined by that name. -/
def declare_global_zero_initialized (pb : ProgramBuilder) (T : Ty) :
    Option (ProgramBuilder × Nat) :=
  let bytes := List.replicate T.size (some 0)
  let global : Global := ⟨bytes, [], T.align⟩
  let name := pb.next_global
  match tryInsert pb.globals name global with
  | some gs => some (⟨name + 1, gs⟩, name)
  | none => none

/-- Embedding of the free function `global_int<T>` from
`src/tooling/miniutil/src/build/global.rs`: a Global of `T`'s size, all bytes
`Some(0)`, no relocations, `T`'s alignment. -/
def global_int (T : Ty) : Global :=
  ⟨List.replicate T.size (some 0), [], T.align⟩

/-- Modelled from the spec (§3, §5): materialize a Global as a live memory
allocation — initialized bytes become concrete cells, uninitialized entries
uninitialized cells, and each relocation becomes an abstract pointer to the
named global's allocation. -/
def allocOfGlobal (g : Global) : Allocation :=
  ⟨g.bytes.map (fun ob => match ob with | some b => .init b | none => .uninit),
   g.relocations.map (fun r => (r.1, ⟨r.2, 0⟩)), true⟩

/-- A memory holding exactly one materialized Global, at allocation id 0
(the location the place returned for that global refers to). -/
def memOfGlobal (g : Global) : Memory := ⟨[allocOfGlobal g]⟩

/-- Whether a value has the shape of the given Type (an integer of the
Type's width, a boolean, a pointer for a reference). -/
def Value.hasTy : Value → Ty → Bool
  | .int s _, .int s' _ => s == s'
  | .bool _, .bool => true
  | .ptr _, .ref _ _ => true
  | _, _ => false

/-- Modelled from the spec (§4.1): whether a value is a valid value of a
Type — any integer of the right width, any boolean, and for a reference a
pointer denoting a currently live allocation. -/
def validFor (m : Memory) (v : Value) (ty : Ty) : Bool :=
  Value.hasTy v ty &&
    (match v, ty with
     | .ptr q, .ref _ _ => m.isLive q.alloc
     | _, _ => true)

/-- Replace the cells of allocation `i`, keeping its relocations and
liveness flag. -/
def Memory.setBytes (m : Memory) (i : Nat) (bs : List AByte) : Memory :=
  match m.allocs[i]? with
  | some a => ⟨m.allocs.set i ⟨bs, a.relocations, a.live⟩⟩
  | none => m

/-- The type-confusion prefix program: local 0 of Type `U` is made live and
assigned a constant value `v` of Type `U`; local 1 of Type `Ref(T)` is made
live and assigned `addr_of(local 0, Ref(T))`.  It contains the store of an
ill-typed pointer but no typed load of the pointee. -/
def confusionFn (U T : Ty) (mt : Bool) (v : Value) : MiniFn where
  localTys := [U, .ref T mt]
  stmts :=
    [ .storageLive 0
    , .assign (.localP 0) (.const v)
    , .storageLive 1
    , .assign (.localP 1) (.addrOf (.localP 0) (.ref T mt))
    ]

end MiniRust

namespace MiniRust

theorem declare_spec {pb : ProgramBuilder} {T : Ty} {pb' : ProgramBuilder}
    {n : Nat} (h : declare_global_zero_initialized pb T = some (pb', n)) :
    n = pb.next_global ∧
    pb.globals.any (fun kv => kv.1 == pb.next_global) = false ∧
    pb' = ⟨pb.next_global + 1, pb.globals ++ [(pb.next_global, global_int T)]⟩ := by
  unfold declare_global_zero_initialized tryInsert at h
  by_cases hc : pb.globals.any (fun kv => kv.1 == pb.next_global)
  · simp [hc] at h
  · simp only [Bool.not_eq_true] at hc
    simp [hc, global_int] at h
    exact ⟨h.2.symm, hc, h.1.symm⟩

theorem lookup_append_fresh {l : List (Nat × Global)} {n : Nat} {g : Global}
    (h : l.any (fun kv => kv.1 == n) = false) :
    lookupGlobal (l ++ [(n, g)]) n = some g := by
  rw [List.any_eq_false] at h
  have hnone : l.find? (fun kv => kv.1 == n) = none := by
    rw [List.find?_eq_none]
    exact h
  simp [lookupGlobal, List.find?_append, hnone]

theorem isLive_set_keep {m : Memory} {i : Nat} {a : Allocation}
    (a' : Allocation) (ha : m.allocs[i]? = some a) (hl : a'.live = a.live)
    (j : Nat) :
    Memory.isLive ⟨m.allocs.set i a'⟩ j = m.isLive j := by
  unfold Memory.isLive
  by_cases hj : j = i
  · subst hj
    have hlt : j < m.allocs.length := (List.getElem?_eq_some.mp ha).1
    rw [List.getElem?_set_self hlt, ha]
    simp [hl]
  · rw [List.getElem?_set_ne (fun he => hj he.symm)]

theorem encodeNatLE_length (s u : Nat) : (encodeNatLE s u).length = s := by
  induction s generalizing u with
  | zero => rfl
  | succ n ih => simp [encodeNatLE, ih]

theorem Value.bytes_length (v : Value) : v.bytes.length = v.size := by
  cases v with
  | int s n => simp [Value.bytes, Value.size, encodeNatLE_length]
  | bool b => rfl
  | ptr p => simp [Value.bytes, Value.size]

theorem writeBytesAt_length {bs : List AByte} {off : Nat} {new : List AByte}
    (h : off + new.length ≤ bs.length) :
    (writeBytesAt bs off new).length = bs.length := by
  simp [writeBytesAt]
  omega

theorem writeBytesAt_first {bs : List AByte} {off : Nat} {c : AByte}
    {rest : List AByte} (h : off ≤ bs.length) :
    (writeBytesAt bs off (c :: rest))[off]? = some c := by
  unfold writeBytesAt
  rw [List.append_assoc,
    List.getElem?_append_right (by rw [List.length_take]; omega)]
  simp [List.length_take, Nat.min_eq_left h]

theorem exists_ok_of_ne_error {e : Except UbKind Value}
    (h : ∀ k, e ≠ .error k) : ∃ v, e = .ok v := by
  cases e
  · exact absurd rfl (h _)
  · exact ⟨_, rfl⟩

/-- C1: running the sample program (declare `x : u8`, live, `x = 2`;
declare `p : &bool`, live, `p = addr_of(x, &bool)`;
`assume(load(deref(load(p)), bool))`) halts with outcome
`UB(InvalidValue(Bool))`, and the UB message contains the substring
"Reference to invalid type". -/
theorem refNotUb_invalid_bool :
    run refNotUbFn = .ub (.invalidValue .bool) (ubMessage (.invalidValue .bool)) ∧
    ∃ pre post, ubMessage (.invalidValue .bool) =
      pre ++ "Reference to invalid type" ++ post := by
  refine ⟨rfl, "", ": load at type Bool but the data in memory violates the validity invariant", ?_⟩
  rfl

/-- C2: for every allocation holding a value of some Type `U` and every
Type `T ≠ U`, the program that stores a pointer to that allocation through
a place declared `Ref(T)` runs to Success: neither the `addr-of` nor the
store is UB, so the first UB of an extended execution can only occur at a
subsequent typed load. -/
theorem store_ill_typed_ref_no_ub :
    ∀ (U T : Ty) (mt : Bool) (v : Value), T ≠ U → Value.hasTy v U = true →
      run (confusionFn U T mt v) = .success := by
  intro U T mt v hne hty
  have hsz : v.size = U.size := by
    cases v <;> cases U <;> simp_all [Value.hasTy, Value.size, Ty.size]
  rcases v with ⟨s, n⟩ | b | q <;> rcases U with ⟨s', sg⟩ | _ | ⟨t', mt'⟩ <;>
    simp [Value.hasTy] at hty
  · subst hty
    simp [run, confusionFn, execStmts, execStmt, initState, evalPlace,
      evalValue, writeValue, Ty.size, Value.size, Value.bytes, writeBytesAt,
      removeOverlap, encodeNatLE_length, List.getD_eq_getElem?_getD, ptrSize]
  · simp [run, confusionFn, execStmts, execStmt, initState, evalPlace,
      evalValue, writeValue, Ty.size, Value.size, Value.bytes, writeBytesAt,
      removeOverlap, encodeNatLE_length, List.getD_eq_getElem?_getD, ptrSize]
  · simp [run, confusionFn, execStmts, execStmt, initState, evalPlace,
      evalValue, writeValue, Ty.size, Value.size, Value.bytes, writeBytesAt,
      removeOverlap, encodeNatLE_length, List.getD_eq_getElem?_getD, ptrSize]

/-- Witness for C2: `U = u8` holding 2, `T = Bool`. -/
theorem store_ill_typed_ref_no_ub_wit :
    Ty.bool ≠ u8 ∧ Value.hasTy (.int 1 2) u8 = true ∧
    run (confusionFn u8 .bool false (.int 1 2)) = .success :=
  ⟨by decide, rfl, store_ill_typed_ref_no_ub u8 .bool false (.int 1 2)
    (by decide) rfl⟩

/-- C3: for a live in-bounds location whose cell holds `c`,
`read_typed(loc, Bool)` fails with `InvalidValue(Bool)` iff `c` is not the
initialized byte 0 and not the initialized byte 1; in particular an
uninitialized cell fails, and bytes 0 and 1 succeed (yielding false resp.
true). -/
theorem bool_read_invalid_iff :
    ∀ (m : Memory) (p : Pointer) (a : Allocation) (c : AByte),
      m.allocs[p.alloc]? = some a → a.live = true →
      a.bytes[p.offset]? = some c →
      ((typedRead m p .bool = .error (.invalidValue .bool) ↔
          c ≠ .init 0 ∧ c ≠ .init 1) ∧
       (c = .uninit → typedRead m p .bool = .error (.invalidValue .bool)) ∧
       (c = .init 0 → typedRead m p .bool = .ok (.bool false)) ∧
       (c = .init 1 → typedRead m p .bool = .ok (.bool true))) := by
  intro m p a c ha hl hc
  have hlt : p.offset < a.bytes.length := by
    rcases List.getElem?_eq_some.mp hc with ⟨h', _⟩
    exact h'
  have hb : ¬ a.bytes.length < p.offset + Ty.size .bool := by
    simp only [Ty.size]
    omega
  simp only [typedRead, ha, hl, Bool.not_eq_true, if_neg, ite_true, ite_false]
  rw [if_neg (by simp), if_neg hb, hc]
  cases c with
  | uninit => simp
  | init b =>
    by_cases h0 : b = 0
    · subst h0
      simp
    · by_cases h1 : b = 1
      · subst h1
        simp
      · simp [h0, h1]

/-- Witness for C3 at a one-byte live allocation holding the byte 2. -/
theorem bool_read_invalid_iff_wit :
    ((typedRead ⟨[⟨[.init 2], [], true⟩]⟩ ⟨0, 0⟩ .bool =
        .error (.invalidValue .bool) ↔
        AByte.init 2 ≠ .init 0 ∧ AByte.init 2 ≠ .init 1) ∧
     (AByte.init 2 = .uninit →
        typedRead ⟨[⟨[.init 2], [], true⟩]⟩ ⟨0, 0⟩ .bool =
          .error (.invalidValue .bool)) ∧
     (AByte.init 2 = .init 0 →
        typedRead ⟨[⟨[.init 2], [], true⟩]⟩ ⟨0, 0⟩ .bool = .ok (.bool false)) ∧
     (AByte.init 2 = .init 1 →
        typedRead ⟨[⟨[.init 2], [], true⟩]⟩ ⟨0, 0⟩ .bool = .ok (.bool true))) :=
  bool_read_invalid_iff ⟨[⟨[.init 2], [], true⟩]⟩ ⟨0, 0⟩ ⟨[.init 2], [], true⟩
    (.init 2) rfl rfl rfl

/-- C4: loading a value at `Ref(T)` checks only that the stored relocation
denotes a currently live allocation: replacing the bytes of any allocation
(in particular the pointee) leaves the result of the `Ref(T)` load
unchanged, and in the sample program the inner `load(p)` of the ill-typed
`&bool` value itself succeeds, yielding the pointer to `x`. -/
theorem ref_read_shallow :
    (∀ (m : Memory) (i : Nat) (bs : List AByte) (a : Allocation) (p : Pointer)
       (t : Ty) (mt : Bool),
      m.allocs[i]? = some a → bs.length = a.bytes.length →
      typedRead (m.setBytes i bs) p (.ref t mt) = typedRead m p (.ref t mt)) ∧
    (match execStmts refNotUbFn (refNotUbFn.stmts.take 4)
        (initState refNotUbFn) with
     | .ok s => evalValue s (.load (.localP 1) refBool)
     | .error e => .error e) = .ok (.ptr ⟨0, 0⟩) := by
  constructor
  · intro m i bs a p t mt ha hlen
    unfold Memory.setBytes
    rw [ha]
    have hiso := isLive_set_keep ⟨bs, a.relocations, a.live⟩ ha rfl
    by_cases hp : p.alloc = i
    · have hlt : i < m.allocs.length := (List.getElem?_eq_some.mp ha).1
      simp only [typedRead, hp, List.getElem?_set_self hlt, ha, hlen, hiso]
    · simp only [typedRead, List.getElem?_set_ne (fun he => hp he.symm), hiso]
  · rfl

/-- Witness for C4: overwriting the pointee byte 2 with 77 does not change
the `Ref(Bool)` load. -/
theorem ref_read_shallow_wit :
    typedRead ((⟨[⟨[.init 2], [], true⟩, ⟨List.replicate 8 .uninit,
        [(0, ⟨0, 0⟩)], true⟩]⟩ : Memory).setBytes 0 [.init 77]) ⟨1, 0⟩
        (.ref .bool false) =
      typedRead ⟨[⟨[.init 2], [], true⟩, ⟨List.replicate 8 .uninit,
        [(0, ⟨0, 0⟩)], true⟩]⟩ ⟨1, 0⟩ (.ref .bool false) :=
  ref_read_shallow.1 ⟨[⟨[.init 2], [], true⟩, ⟨List.replicate 8 .uninit,
    [(0, ⟨0, 0⟩)], true⟩]⟩ 0 [.init 77] ⟨[.init 2], [], true⟩ ⟨1, 0⟩ .bool false
    rfl rfl

/-- C5: for every fixed-width integer Type, after any successful write of a
same-sized value, `read_typed` at that integer Type never fails with
`InvalidValue` — the integer validity check has no failure branch. -/
theorem int_read_never_invalid :
    ∀ (m : Memory) (p : Pointer) (v : Value) (m' : Memory) (sz : Nat)
      (sg : Bool) (T' : Ty),
      writeValue m p v = .ok m' → Value.size v = sz →
      typedRead m' p (.int sz sg) ≠ .error (.invalidValue T') := by
  intro m p v m' sz sg T' _ _ h
  unfold typedRead at h
  rcases hma : m'.allocs[p.alloc]? with _ | a
  · rw [hma] at h
    exact Except.noConfusion h (fun he => UbKind.noConfusion he)
  · rw [hma] at h
    by_cases hlive : a.live
    · simp only [hlive, not_true_eq_false, if_neg, ite_false] at h
      by_cases hb : a.bytes.length < p.offset + Ty.size (.int sz sg)
      · rw [if_pos hb] at h
        exact UbKind.noConfusion (Except.error.inj h)
      · rw [if_neg hb] at h
        exact Except.noConfusion h
    · simp only [hlive] at h
      rw [if_pos (by simp [hlive])] at h
      exact UbKind.noConfusion (Except.error.inj h)

/-- Witness for C5: write the integer 7 into a one-byte allocation, read at
`u8`. -/
theorem int_read_never_invalid_wit :
    writeValue ⟨[⟨[.uninit], [], true⟩]⟩ ⟨0, 0⟩ (.int 1 7) =
      .ok ⟨[⟨[.init 7], [], true⟩]⟩ ∧
    Value.size (.int 1 7) = 1 ∧
    typedRead ⟨[⟨[.init 7], [], true⟩]⟩ ⟨0, 0⟩ (.int 1 false) ≠
      .error (.invalidValue u8) :=
  ⟨by rfl, rfl,
    int_read_never_invalid ⟨[⟨[.uninit], [], true⟩]⟩ ⟨0, 0⟩ (.int 1 7)
      ⟨[⟨[.init 7], [], true⟩]⟩ 1 false u8 (by rfl) rfl⟩

/-- C6: every Local is dead in the initial state (before its
`storage_live`) and dead again after a `storage_dead`, and any write
(`assign`) or read (`load`) access to a dead Local halts evaluation with UB
of kind `OutOfLiveness`, for every Type — a kind distinct from
`InvalidValue`. -/
theorem dead_local_access_out_of_liveness :
    (∀ (fn : MiniFn) (l : Nat),
      (initState fn).locals.getD l none = none) ∧
    (∀ (fn : MiniFn) (s : EvalState) (l : Nat) (s' : EvalState),
      execStmt fn s (.storageDead l) = .ok s' →
      s'.locals.getD l none = none) ∧
    (∀ (fn : MiniFn) (s : EvalState) (l : Nat) (e : ValueExpr),
      s.locals.getD l none = none →
      execStmt fn s (.assign (.localP l) e) = .error (.ub .outOfLiveness)) ∧
    (∀ (s : EvalState) (l : Nat) (ty : Ty),
      s.locals.getD l none = none →
      evalValue s (.load (.localP l) ty) = .error (.ub .outOfLiveness)) ∧
    (∀ ty : Ty, UbKind.outOfLiveness ≠ UbKind.invalidValue ty) := by
  refine ⟨?_, ?_, ?_, ?_, ?_⟩
  · intro fn l
    simp only [initState, List.getD_eq_getElem?_getD, List.getElem?_replicate]
    split <;> rfl
  · intro fn s l s' h
    simp only [execStmt] at h
    rcases hd : s.locals.getD l none with _ | a
    · rw [hd] at h
      exact Except.noConfusion h
    · rw [hd] at h
      have := Except.ok.inj h
      subst this
      by_cases hl : l < s.locals.length
      · simp [List.getD_eq_getElem?_getD, List.getElem?_set_self hl]
      · have hlen : (s.locals.set l none).length ≤ l := by
          rw [List.length_set]
          exact Nat.le_of_not_lt hl
        simp [List.getD_eq_getElem?_getD, List.getElem?_eq_none hlen]
  · intro fn s l e h
    rw [List.getD_eq_getElem?_getD] at h
    simp [execStmt, evalPlace, h]
  · intro s l ty h
    rw [List.getD_eq_getElem?_getD] at h
    simp [evalValue, evalPlace, h]
  · intro ty h
    exact UbKind.noConfusion h

/-- Witness for C6 at local 0 of the sample program and a concrete dead
state. -/
theorem dead_local_access_out_of_liveness_wit :
    (initState refNotUbFn).locals.getD 0 none = none ∧
    execStmt refNotUbFn ⟨⟨[]⟩, [none]⟩ (.assign (.localP 0) (.const (.bool true))) =
      .error (.ub .outOfLiveness) ∧
    evalValue (⟨⟨[]⟩, [none]⟩ : EvalState) (.load (.localP 0) .bool) =
      .error (.ub .outOfLiveness) ∧
    UbKind.outOfLiveness ≠ UbKind.invalidValue .bool :=
  ⟨dead_local_access_out_of_liveness.1 refNotUbFn 0,
   dead_local_access_out_of_liveness.2.2.1 refNotUbFn ⟨⟨[]⟩, [none]⟩ 0 (.const (.bool true)) rfl,
   dead_local_access_out_of_liveness.2.2.2.1 ⟨⟨[]⟩, [none]⟩ 0 .bool rfl,
   dead_local_access_out_of_liveness.2.2.2.2 .bool⟩

/-- C7: `declare_global_zero_initialized<T>()` creates a Global whose byte
sequence has length `T.size` with every byte `Some 0`, an empty relocation
set, and alignment `T.align`; and for `T = u8` a typed load of `u8` from the
place referring to that global succeeds and yields 0. -/
theorem declare_global_zero_init_contents :
    (∀ (pb : ProgramBuilder) (T : Ty) (pb' : ProgramBuilder) (n : Nat),
      declare_global_zero_initialized pb T = some (pb', n) →
      lookupGlobal pb'.globals n =
        some ⟨List.replicate (Ty.size T) (some 0), [], Ty.align T⟩) ∧
    typedRead (memOfGlobal (global_int u8)) ⟨0, 0⟩ u8 = .ok (.int 1 0) := by
  constructor
  · intro pb T pb' n h
    obtain ⟨hn, hfresh, hpb⟩ := declare_spec h
    subst hn
    rw [hpb]
    exact lookup_append_fresh hfresh
  · rfl

/-- Witness for C7 at the empty builder and `T = u8`. -/
theorem declare_global_zero_init_contents_wit :
    declare_global_zero_initialized ⟨0, []⟩ u8 =
      some (⟨1, [(0, global_int u8)]⟩, 0) ∧
    lookupGlobal [(0, global_int u8)] 0 =
      some ⟨List.replicate (Ty.size u8) (some 0), [], Ty.align u8⟩ := by
  refine ⟨by rfl, ?_⟩
  exact (declare_global_zero_init_contents.1 ⟨0, []⟩ u8 ⟨1, [(0, global_int u8)]⟩ 0 (by rfl))

/-- C8: writing a valid value of Type `T` and immediately reading the same
span back with `read_typed` at the same `T` never fails. -/
theorem write_read_roundtrip :
    ∀ (m : Memory) (p : Pointer) (T : Ty) (v : Value) (m' : Memory),
      validFor m v T = true → writeValue m p v = .ok m' →
      ∃ v', typedRead m' p T = .ok v' := by
  intro m p T v m' hv hw
  unfold writeValue at hw
  rcases ha : m.allocs[p.alloc]? with _ | a
  · rw [ha] at hw
    exact Except.noConfusion hw
  rw [ha] at hw
  dsimp only at hw
  by_cases hl : a.live
  case neg =>
    rw [if_pos (by simp [hl])] at hw
    exact Except.noConfusion hw
  rw [if_neg (by simp [hl])] at hw
  by_cases hb : a.bytes.length < p.offset + v.size
  case pos =>
    rw [if_pos hb] at hw
    exact Except.noConfusion hw
  rw [if_neg hb] at hw
  injection hw with hm'
  have hlt : p.alloc < m.allocs.length := (List.getElem?_eq_some.mp ha).1
  have hwb : p.offset + v.bytes.length ≤ a.bytes.length := by
    rw [Value.bytes_length]
    omega
  have hwlen : (writeBytesAt a.bytes p.offset v.bytes).length =
      a.bytes.length := writeBytesAt_length hwb
  rcases v with ⟨s, n⟩ | b | q <;> rcases T with ⟨s', sg⟩ | _ | ⟨t', mt'⟩ <;>
    simp [validFor, Value.hasTy] at hv
  · -- integer written, read back at the same width
    subst hv
    subst hm'
    apply exists_ok_of_ne_error
    intro k hr
    unfold typedRead at hr
    rw [List.getElem?_set_self hlt] at hr
    dsimp only at hr
    rw [if_neg (by simp [hl]), if_neg (by
      simp only [hwlen, Ty.size]
      simp only [Value.size] at hb
      omega)] at hr
    exact Except.noConfusion hr
  · -- boolean written, read back as Bool
    subst hm'
    apply exists_ok_of_ne_error
    intro k hr
    unfold typedRead at hr
    rw [List.getElem?_set_self hlt] at hr
    dsimp only at hr
    rw [if_neg (by simp [hl]), if_neg (by
      simp only [hwlen, Ty.size]
      simp only [Value.size] at hb
      omega)] at hr
    have hoff : p.offset ≤ a.bytes.length := by
      simp only [Value.size] at hb
      omega
    cases b
    · rw [show (Value.bool false).bytes = [.init 0] from rfl,
        writeBytesAt_first hoff] at hr
      simp at hr
    · rw [show (Value.bool true).bytes = [.init 1] from rfl,
        writeBytesAt_first hoff] at hr
      simp at hr
  · -- pointer to a live allocation written, read back at Ref type
    subst hm'
    apply exists_ok_of_ne_error
    intro k hr
    unfold typedRead at hr
    rw [List.getElem?_set_self hlt] at hr
    dsimp only at hr
    rw [if_neg (by simp [hl]), if_neg (by
      simp only [hwlen, Ty.size]
      simp only [Value.size] at hb
      omega)] at hr
    unfold findReloc at hr
    rw [List.find?_cons_of_pos _ (by simp)] at hr
    dsimp only at hr
    rw [isLive_set_keep ⟨writeBytesAt a.bytes p.offset
      (Value.ptr q).bytes, (p.offset, q) :: removeOverlap a.relocations
      p.offset (Value.ptr q).size, a.live⟩ ha rfl q.alloc, hv] at hr
    simp at hr

/-- Witness for C8: round-trip of the boolean `true` through a one-byte
allocation. -/
theorem write_read_roundtrip_wit :
    validFor ⟨[⟨[.uninit], [], true⟩]⟩ (.bool true) .bool = true ∧
    writeValue ⟨[⟨[.uninit], [], true⟩]⟩ ⟨0, 0⟩ (.bool true) =
      .ok ⟨[⟨[.init 1], [], true⟩]⟩ ∧
    ∃ v', typedRead ⟨[⟨[.init 1], [], true⟩]⟩ ⟨0, 0⟩ .bool = .ok v' :=
  ⟨rfl, by rfl, write_read_roundtrip ⟨[⟨[.uninit], [], true⟩]⟩ ⟨0, 0⟩ .bool
    (.bool true) ⟨[⟨[.init 1], [], true⟩]⟩ rfl (by rfl)⟩

/-- C9: for every sized type `T`, the Global registered by
`ProgramBuilder.declare_global_zero_initialized<T>()` equals (same bytes,
same relocations, same alignment) the Global returned by the free function
`global_int<T>()`. -/
theorem declare_refines_global_int :
    ∀ (pb : ProgramBuilder) (T : Ty) (pb' : ProgramBuilder) (n : Nat),
      declare_global_zero_initialized pb T = some (pb', n) →
      lookupGlobal pb'.globals n = some (global_int T) := by
  intro pb T pb' n h
  obtain ⟨hn, hfresh, hpb⟩ := declare_spec h
  subst hn
  rw [hpb]
  exact lookup_append_fresh hfresh

/-- Witness for C9 at the empty builder and `T = u8`. -/
theorem declare_refines_global_int_wit :
    lookupGlobal [(0, global_int u8)] 0 = some (global_int u8) :=
  declare_refines_global_int ⟨0, []⟩ u8 ⟨1, [(0, global_int u8)]⟩ 0 (by rfl)

/-- C10: when every registered global name is below the counter (the
invariant the strictly increasing counter maintains), a call to
`declare_global_zero_initialized` succeeds under the fresh name
`next_global`, bumps the counter, grows the globals map by exactly one
entry, keeps every previously declared global (and its binding) unchanged,
and re-establishes the invariant — so no call ever overwrites an existing
global. -/
theorem declare_global_fresh_growth :
    ∀ (pb : ProgramBuilder) (T : Ty),
      (∀ kv ∈ pb.globals, kv.1 < pb.next_global) →
      ∃ pb', declare_global_zero_initialized pb T = some (pb', pb.next_global) ∧
        pb'.next_global = pb.next_global + 1 ∧
        pb'.globals.length = pb.globals.length + 1 ∧
        (∀ kv ∈ pb.globals, kv ∈ pb'.globals) ∧
        (∀ k, k ≠ pb.next_global →
          lookupGlobal pb'.globals k = lookupGlobal pb.globals k) ∧
        (∀ kv ∈ pb'.globals, kv.1 < pb'.next_global) := by
  intro pb T h
  have hfresh : pb.globals.any (fun kv => kv.1 == pb.next_global) = false := by
    rw [List.any_eq_false]
    intro kv hkv
    simp only [beq_iff_eq]
    exact Nat.ne_of_lt (h kv hkv)
  refine ⟨⟨pb.next_global + 1, pb.globals ++ [(pb.next_global, global_int T)]⟩,
    ?_, rfl, by simp, ?_, ?_, ?_⟩
  · simp only [declare_global_zero_initialized, tryInsert, hfresh]
    rfl
  · intro kv hkv
    exact List.mem_append_left _ hkv
  · intro k hk
    simp only [lookupGlobal, List.find?_append]
    have hone : List.find? (fun kv => kv.1 == k) [(pb.next_global, global_int T)] = none := by
      rw [List.find?_eq_none]
      intro x hx
      simp only [List.mem_singleton] at hx
      subst hx
      simp only [beq_iff_eq]
      exact fun hEq => hk hEq.symm
    rw [hone, Option.or_none]
  · intro kv hkv
    rcases List.mem_append.mp hkv with hin | hin
    · exact Nat.lt_succ_of_lt (h kv hin)
    · simp only [List.mem_singleton] at hin
      subst hin
      exact Nat.lt_succ_self _

/-- Witness for C10 at the empty builder and `T = u8`. -/
theorem declare_global_fresh_growth_wit :
    ∃ pb', declare_global_zero_initialized ⟨0, []⟩ u8 = some (pb', 0) ∧
      pb'.next_global = 0 + 1 ∧
      pb'.globals.length = List.length ([] : List (Nat × Global)) + 1 ∧
      (∀ kv ∈ ([] : List (Nat × Global)), kv ∈ pb'.globals) ∧
      (∀ k, k ≠ 0 → lookupGlobal pb'.globals k = lookupGlobal [] k) ∧
      (∀ kv ∈ pb'.globals, kv.1 < pb'.next_global) :=
  declare_global_fresh_growth ⟨0, []⟩ u8 (by simp)

end MiniRust
